import Mathlib

/-!
Verification development for the torbox-file-index request pipeline.

The development shallowly embeds the three core components of the
repository — the multi-tier rate limiter (src/index.ts), the caching
upstream client (src/torbox/client.ts, cached variant), and the
filter/sort engine (the regex and suffix-term variants of lib/filter) —
as pure Lean functions.  JavaScript `Map`s and `Set`s are modelled as
insertion-ordered association lists, strings as Lean `String` with
character-level re-implementations of the JS string primitives, and
`Date.now()` as an explicit `now : Nat` argument threaded through each
stateful operation.  Platform collaborators that the repository does not
implement itself (the `Intl.Collator` comparison and `RegExp` matching)
are passed in as function parameters.
-/

/-! JavaScript string primitives, re-implemented over `String.data` so
that every operation reduces inside the kernel. -/

namespace Js

def toLower (s : String) : String :=
String.mk (s.data.map Char.toLower)

def trimChars (l : List Char) : List Char :=
((l.dropWhile Char.isWhitespace).reverse.dropWhile Char.isWhitespace).reverse

def trim (s : String) : String :=
String.mk (trimChars s.data)

def len (s : String) : Nat :=
s.data.length

def splitChars (p : Char → Bool) : List Char → List (List Char)
  | [] => [[]]
  | c :: rest =>
    if p c then [] :: splitChars p rest
    else
      match splitChars p rest with
      | [] => [[c]]
      | h :: t => (c :: h) :: t

def split (p : Char → Bool) (s : String) : List String :=
(splitChars p s.data).map String.mk

def startsWith (s pre : String) : Bool :=
pre.data.isPrefixOf s.data

def endsWith (s suf : String) : Bool :=
suf.data.isSuffixOf s.data

def drop (s : String) (n : Nat) : String :=
String.mk (s.data.drop n)

def take (s : String) (n : Nat) : String :=
String.mk (s.data.take n)

end Js

/-! JavaScript `Map` model: an insertion-ordered association list with
string keys.  `set` on a present key replaces the value in place, `set`
on an absent key appends at the end, and `delete` removes the (unique)
entry — exactly the ECMAScript `Map` iteration-order contract. -/

def mapGet {α : Type} : List (String × α) → String → Option α
  | [], _ => none
  | (k', v) :: t, k => if k' = k then some v else mapGet t k

def mapSet {α : Type} : List (String × α) → String → α → List (String × α)
  | [], k, v => [(k, v)]
  | (k', v') :: t, k, v =>
    if k' = k then (k, v) :: t else (k', v') :: mapSet t k v

def mapDelete {α : Type} : List (String × α) → String → List (String × α)
  | [], _ => []
  | (k', v') :: t, k => if k' = k then t else (k', v') :: mapDelete t k

/-! Rate limiter (src/index.ts lines 23-125).  Constants and the three
bounded maps, embedded with the maps passed explicitly instead of living
in module scope. -/

def RATE_LIMIT_WINDOW_MS : Nat := 60000

def RATE_LIMIT_MAX_REQUESTS_PER_IP : Nat := 240

def RATE_LIMIT_MAX_REQUESTS_PER_IP_KEY : Nat := 240

def RATE_LIMIT_MAX_UNIQUE_KEYS_PER_IP : Nat := 3

def RATE_LIMIT_STATE_SOFT_MAX : Nat := 10000

structure Counter where
  count : Nat
  resetAt : Nat
deriving DecidableEq

structure ChurnEntry where
  keys : List String
  resetAt : Nat
deriving DecidableEq

/-- JS `Set.add`: append the element unless already present (insertion
order preserved, size = length). -/
def setAdd (s : List String) (k : String) : List String :=
if k ∈ s then s else s ++ [k]

/-- src/index.ts `pruneCounterMap`: when the map exceeds the soft
maximum, delete every entry whose window has expired (`now >= resetAt`).
No further eviction happens. -/
def pruneCounterMap (map : List (String × Counter)) (now : Nat) :
    List (String × Counter) :=
if map.length ≤ RATE_LIMIT_STATE_SOFT_MAX then map
else map.filter (fun e => decide (now < e.2.resetAt))

/-- src/index.ts `consumeRateLimit`: prune, then reset the bucket
(count 1) if absent or expired, else increment and report limited when
the incremented count exceeds the per-window maximum. -/
def consumeRateLimit (map : List (String × Counter)) (bucket : String)
    (maxRequests now : Nat) : Bool × List (String × Counter) :=
  let m := pruneCounterMap map now
  match mapGet m bucket with
  | none => (false, mapSet m bucket ⟨1, now + RATE_LIMIT_WINDOW_MS⟩)
  | some current =>
    if current.resetAt ≤ now then
      (false, mapSet m bucket ⟨1, now + RATE_LIMIT_WINDOW_MS⟩)
    else
      (decide (maxRequests < current.count + 1),
        mapSet m bucket ⟨current.count + 1, current.resetAt⟩)

/-- src/index.ts `pruneKeyChurnMap`, same policy as `pruneCounterMap`. -/
def pruneKeyChurnMap (map : List (String × ChurnEntry)) (now : Nat) :
    List (String × ChurnEntry) :=
if map.length ≤ RATE_LIMIT_STATE_SOFT_MAX then map
else map.filter (fun e => decide (now < e.2.resetAt))

/-- src/index.ts `consumeKeyChurnLimit`: prune, reset the per-IP key set
on absence/expiry, else add the key and report limited when the set of
distinct keys exceeds the unique-key cap. -/
def consumeKeyChurnLimit (map : List (String × ChurnEntry))
    (ipBucket keyValue : String) (now : Nat) :
    Bool × List (String × ChurnEntry) :=
  let m := pruneKeyChurnMap map now
  match mapGet m ipBucket with
  | none => (false, mapSet m ipBucket ⟨[keyValue], now + RATE_LIMIT_WINDOW_MS⟩)
  | some current =>
    if current.resetAt ≤ now then
      (false, mapSet m ipBucket ⟨[keyValue], now + RATE_LIMIT_WINDOW_MS⟩)
    else
      let ks := setAdd current.keys keyValue
      (decide (RATE_LIMIT_MAX_UNIQUE_KEYS_PER_IP < ks.length),
        mapSet m ipBucket ⟨ks, current.resetAt⟩)

/-- The three module-level rate-limit maps of src/index.ts, as one
explicit state record. -/
structure RateState where
  ipRateLimitState : List (String × Counter)
  keyRateLimitState : List (String × Counter)
  keyChurnState : List (String × ChurnEntry)
deriving DecidableEq

/-- src/index.ts `isRateLimited`: the three checks run in sequence and
the function returns on the first one that reports limited, leaving the
later maps untouched in that case. -/
def isRateLimited (s : RateState) (ip : Option String) (key : String)
    (now : Nat) : Bool × RateState :=
  let ipBucket := ip.getD "unknown"
  let ipKeyBucket := ipBucket ++ "|" ++ key
  let r1 := consumeRateLimit s.ipRateLimitState ipBucket
    RATE_LIMIT_MAX_REQUESTS_PER_IP now
  if r1.1 then (true, { s with ipRateLimitState := r1.2 })
  else
    let r2 := consumeRateLimit s.keyRateLimitState ipKeyBucket
      RATE_LIMIT_MAX_REQUESTS_PER_IP_KEY now
    if r2.1 then
      (true, { ipRateLimitState := r1.2, keyRateLimitState := r2.2,
               keyChurnState := s.keyChurnState })
    else
      let r3 := consumeKeyChurnLimit s.keyChurnState ipBucket key now
      (r3.1, { ipRateLimitState := r1.2, keyRateLimitState := r2.2,
               keyChurnState := r3.2 })

/-- Repeated admission calls against one counter bucket, returning the
final map and the per-call limited flags in order. -/
def runCounterCalls (map : List (String × Counter)) (bucket : String)
    (maxRequests : Nat) : List Nat → List (String × Counter) × List Bool
  | [] => (map, [])
  | t :: rest =>
    let r := consumeRateLimit map bucket maxRequests t
    let out := runCounterCalls r.2 bucket maxRequests rest
    (out.1, r.1 :: out.2)

/-- Repeated churn-check calls for one IP, each call a (key, time) pair,
returning the final map and the per-call limited flags in order. -/
def runChurnCalls (map : List (String × ChurnEntry)) (ipBucket : String) :
    List (String × Nat) → List (String × ChurnEntry) × List Bool
  | [] => (map, [])
  | c :: rest =>
    let r := consumeKeyChurnLimit map ipBucket c.1 c.2
    let out := runChurnCalls r.2 ipBucket rest
    (out.1, r.1 :: out.2)

/-- Distinct keys of a list in first-seen order, as accumulated by a JS
`Set` that every call adds its key to. -/
def distinctKeys (ks : List String) : List String :=
ks.foldl setAdd []

/-! Entity model (src/torbox/types.ts and the normalization in
src/torbox/client.ts). -/

inductive Source where
  | torrents
  | webdl
  | usenet
deriving DecidableEq

def sourceLabel : Source → String
  | .torrents => "torrents"
  | .webdl => "webdl"
  | .usenet => "usenet"

structure FileEntry where
  source : Source
  container_id : Nat
  file_id : Nat
  full_name : String
  display_name : String
  size : Nat
deriving DecidableEq

structure ContainerEntry where
  source : Source
  container_id : Nat
  container_name : String
  files : List FileEntry
deriving DecidableEq

/-! Caching upstream client (src/torbox/client.ts, cached variant):
cache entries, lazy-evicting reads, the two-phase trim, and the cached
list fetch with the network part abstracted as an `upstream` outcome. -/

def LIST_CACHE_TTL_MS : Nat := 15000

def CACHE_SOFT_MAX : Nat := 2000

structure CacheEntry (α : Type) where
  value : α
  expiresAt : Nat
deriving DecidableEq

/-- src/torbox/client.ts `cacheGet`: a hit is visible only while
`now < expiresAt`; an expired entry is deleted when encountered and
reported as a miss.  Returns the value (if visible) and the map after
the lazy eviction. -/
def cacheGet {α : Type} (map : List (String × CacheEntry α)) (key : String)
    (now : Nat) : Option α × List (String × CacheEntry α) :=
  match mapGet map key with
  | none => (none, map)
  | some hit =>
    if hit.expiresAt ≤ now then (none, mapDelete map key)
    else (some hit.value, map)

/-- src/torbox/client.ts `trimCache`: nothing happens at or under the
soft maximum; over it, first drop every expired entry, then, if still
over, delete entries in iteration (insertion) order until the size is
back at the cap. -/
def trimCache {α : Type} (map : List (String × CacheEntry α)) (now : Nat) :
    List (String × CacheEntry α) :=
  if map.length ≤ CACHE_SOFT_MAX then map
  else
    let m1 := map.filter (fun e => decide (now < e.2.expiresAt))
    if m1.length ≤ CACHE_SOFT_MAX then m1
    else m1.drop (m1.length - CACHE_SOFT_MAX)

/-- src/torbox/client.ts `cacheSet`: trim, then store the value with a
fresh `expiresAt = now + TTL`. -/
def cacheSet {α : Type} (map : List (String × CacheEntry α)) (key : String)
    (value : α) (now : Nat) : List (String × CacheEntry α) :=
mapSet (trimCache map now) key ⟨value, now + LIST_CACHE_TTL_MS⟩

/-- src/torbox/client.ts `fetchContainersBySource` (cached variant).
The paginated network fetch is abstracted as the `upstream` outcome the
loop would produce; the third component records whether the upstream was
consulted at all.  On a cache hit the cached list is returned with no
upstream call; on a miss the upstream outcome is returned, and a
successful one is stored with the fixed TTL. -/
def fetchContainersBySource (upstream : Except String (List ContainerEntry))
    (cache : List (String × CacheEntry (List ContainerEntry)))
    (source : Source) (key : String) (now : Nat) :
    Except String (List ContainerEntry) ×
      List (String × CacheEntry (List ContainerEntry)) × Bool :=
  let cacheKey := sourceLabel source ++ ":" ++ key
  let g := cacheGet cache cacheKey now
  match g.1 with
  | some cached => (.ok cached, g.2, false)
  | none =>
    match upstream with
    | .ok containers => (.ok containers, cacheSet g.2 cacheKey containers now, true)
    | .error e => (.error e, g.2, true)

/-! All-sources fan-out (src/index.ts fetch handler, root-listing
branch): every source is fetched, fulfilled results contribute their
containers, rejected ones contribute an error annotation, and the
response is 502 exactly when the collected container list is empty and
at least one source failed. -/

def aggregateAllSources (settled : List (Source × Except String (List ContainerEntry))) :
    Except String (List ContainerEntry × List String) :=
  let allContainers := settled.foldl
    (fun acc r => match r.2 with | .ok cs => acc ++ cs | .error _ => acc) []
  let errors := settled.foldl
    (fun acc r => match r.2 with
      | .ok _ => acc
      | .error _ => acc ++ [sourceLabel r.1 ++ ": unavailable"]) []
  if allContainers.length = 0 ∧ 0 < errors.length then
    .error "Upstream provider unavailable"
  else .ok (allContainers, errors)

/-! Filter/sort engine.  The repository ships two variants of
lib/filter: a regex-matching one and a suffix-term one; they share the
sort/truncate logic.  The `Intl.Collator` name comparison is passed in
as `collCmp : String → String → Int` (negative / zero / positive), and
sorting models the stable ECMAScript `Array.prototype.sort` as a stable
insertion sort by `comparator a b ≤ 0`. -/

inductive SortColumn where
  | N
  | S
  | D
deriving DecidableEq

inductive SortOrder where
  | A
  | D
deriving DecidableEq

def MAX_FILTER_LEN : Nat := 256

def MAX_FILTER_TERMS : Nat := 24

def MAX_TERM_LEN : Nat := 32

/-- lib/filter `sortByName`: locale-aware comparison, negated for
descending order. -/
def sortByName (collCmp : String → String → Int) (a b : String)
    (order : SortOrder) : Int :=
  let cmp := collCmp a b
  match order with
  | .D => -cmp
  | .A => cmp

/-- lib/filter `sortByNumber`: subtraction comparison, negated for
descending order. -/
def sortByNumber (a b : Int) (order : SortOrder) : Int :=
  let cmp := a - b
  match order with
  | .D => -cmp
  | .A => cmp

/-- The three-key file comparator passed to `matched.sort` in
`filterAndSortFiles`: primary key size (column S) or collated display
name (columns N and D), tie broken by the numeric file id. -/
def fileCompare (collCmp : String → String → Int) (column : SortColumn)
    (order : SortOrder) (a b : FileEntry) : Int :=
  match column with
  | .S =>
    let bySize := sortByNumber (a.size : Int) (b.size : Int) order
    if bySize ≠ 0 then bySize
    else sortByNumber (a.file_id : Int) (b.file_id : Int) order
  | _ =>
    let byName := sortByName collCmp a.display_name b.display_name order
    if byName ≠ 0 then byName
    else sortByNumber (a.file_id : Int) (b.file_id : Int) order

/-- The container size used by the sort: the sum of the files' sizes,
computed by `reduce` exactly as in the source. -/
def containerSize (c : ContainerEntry) : Nat :=
c.files.foldl (fun sum file => sum + file.size) 0

/-- The three-key container comparator of `filterAndSortContainers`:
primary key summed size (column S) or collated container name, tie
broken by the numeric container id. -/
def containerCompare (collCmp : String → String → Int) (column : SortColumn)
    (order : SortOrder) (a b : ContainerEntry) : Int :=
  match column with
  | .S =>
    let bySize := sortByNumber (containerSize a : Int) (containerSize b : Int) order
    if bySize ≠ 0 then bySize
    else sortByNumber (a.container_id : Int) (b.container_id : Int) order
  | _ =>
    let byName := sortByName collCmp a.container_name b.container_name order
    if byName ≠ 0 then byName
    else sortByNumber (a.container_id : Int) (b.container_id : Int) order

/-- ECMAScript `Array.prototype.sort` with a comparator, modelled as a
stable sort by the relation `cmp a b ≤ 0`. -/
def jsSortBy {α : Type} (cmp : α → α → Int) (l : List α) : List α :=
List.insertionSort (fun a b => cmp a b ≤ 0) l

structure FileFilterResult where
  files : List FileEntry
  totalMatched : Nat
deriving DecidableEq

structure ContainerFilterResult where
  containers : List ContainerEntry
  totalMatched : Nat
deriving DecidableEq

namespace RegexFilter

/-- Compiled filter of the regex variant: the `RegExp` held by the
compiled filter is represented by its `test` predicate. -/
structure CompiledFilter where
  test : String → Bool
  matchAll : Bool

def ALLOWED_REGEX_FLAGS : List Char := ['d', 'g', 'i', 'm', 's', 'u', 'v', 'y']

/-- lib/filter (regex variant) `sanitizeFlags`: reject unknown flags,
drop g and y, and de-duplicate preserving order. -/
def sanitizeFlags (flags : String) : Except String String :=
  let step := fun (acc : Except String (List Char)) (flag : Char) =>
    match acc with
    | .error e => .error e
    | .ok seen =>
      if flag ∉ ALLOWED_REGEX_FLAGS then .error "Invalid regex flag"
      else if flag = 'g' ∨ flag = 'y' then .ok seen
      else if flag ∈ seen then .ok seen
      else .ok (seen ++ [flag])
  match flags.data.foldl step (.ok []) with
  | .error e => .error e
  | .ok out => .ok (String.mk out)

/-- lib/filter (regex variant) `compileFilter`.  `RegExpTest pattern
flags` stands for `new RegExp(pattern, flags).test`, the platform
primitive the repository calls; everything else (length check, trim
default, flag sanitizing, the match-all sentinel test) is the
repository's own code. -/
def compileFilter (RegExpTest : String → String → String → Bool)
    (pattern flags : String) : Except String CompiledFilter :=
  if MAX_FILTER_LEN < Js.len pattern then .error "Filter too long (max 256 chars)"
  else
    let normalizedPattern := if Js.trim pattern = "" then ".*" else Js.trim pattern
    match sanitizeFlags flags with
    | .error e => .error e
    | .ok sanitized =>
      let matchAll := normalizedPattern = ".+" ∨ normalizedPattern = ".*" ∨
        normalizedPattern = "^.*$"
      .ok { test := RegExpTest normalizedPattern sanitized,
            matchAll := decide matchAll }

/-- The per-file predicate of `filterAndSortFiles` (regex variant):
match-all fast path, else the regex test on the full name. -/
def fileMatches (compiled : CompiledFilter) (name : String) : Bool :=
compiled.matchAll || compiled.test name

/-- The per-container predicate of `filterAndSortContainers` (regex
variant): fast path, else the container name or any file name tests. -/
def containerMatches (compiled : CompiledFilter) (c : ContainerEntry) : Bool :=
  if compiled.matchAll then true
  else if compiled.test c.container_name then true
  else c.files.any (fun file => compiled.test file.full_name)

/-- lib/filter (regex variant) `filterAndSortFiles`: filter, stable
sort by the three-key comparator, truncate to `limit`, and report the
pre-truncation match count. -/
def filterAndSortFiles (collCmp : String → String → Int)
    (files : List FileEntry) (compiled : CompiledFilter) (limit : Nat)
    (column : SortColumn) (order : SortOrder) : FileFilterResult :=
  let matched := files.filter (fun file => fileMatches compiled file.full_name)
  let sorted := jsSortBy (fileCompare collCmp column order) matched
  { files := sorted.take limit, totalMatched := sorted.length }

/-- lib/filter (regex variant) `filterAndSortContainers`. -/
def filterAndSortContainers (collCmp : String → String → Int)
    (containers : List ContainerEntry) (compiled : CompiledFilter) (limit : Nat)
    (column : SortColumn) (order : SortOrder) : ContainerFilterResult :=
  let matched := containers.filter (fun c => containerMatches compiled c)
  let sorted := jsSortBy (containerCompare collCmp column order) matched
  { containers := sorted.take limit, totalMatched := sorted.length }

end RegexFilter

namespace TermFilter

structure CompiledFilter where
  matchAll : Bool
  raw : String
  terms : List String
deriving DecidableEq

/-- lib/filter (term variant) `normalizeTerm`: lower-case, shorten a
leading "*." to ".", and ensure a leading ".". -/
def normalizeTerm (term : String) : String :=
  let value := Js.toLower (Js.trim term)
  let value := if Js.startsWith value "*." then Js.drop value 1 else value
  if Js.startsWith value "." then value else "." ++ value

/-- lib/filter (term variant) `splitTerms`: split on runs of commas and
whitespace, drop blanks, and fail fast on too many terms or an overlong
term. -/
def splitTerms (pattern : String) : Except String (List String) :=
  let terms := ((Js.split (fun c => c = ',' || c.isWhitespace) pattern).map
    Js.trim).filter (fun t => t ≠ "")
  if MAX_FILTER_TERMS < terms.length then
    .error "Too many filter terms (max 24)"
  else if terms.any (fun t => decide (MAX_TERM_LEN < Js.len t)) then
    .error "Filter term too long (max 32 chars)"
  else .ok terms

/-- lib/filter (term variant) `nameMatchesAnyTerm`: a lower-cased name
matches when it ends with any of the normalized terms. -/
def nameMatchesAnyTerm (name : String) (terms : List String) : Bool :=
  let normalized := Js.toLower name
  terms.any (fun term => Js.endsWith normalized term)

/-- lib/filter (term variant) `compileFilter`: length check, trim
default, match-all sentinel test, then term splitting and
normalization; an empty normalized term list also sets the match-all
flag. -/
def compileFilter (pattern _flags : String) : Except String CompiledFilter :=
  if MAX_FILTER_LEN < Js.len pattern then .error "Filter too long (max 256 chars)"
  else
    let normalizedPattern := if Js.trim pattern = "" then ".*" else Js.trim pattern
    let matchAll := normalizedPattern = ".+" ∨ normalizedPattern = ".*" ∨
      normalizedPattern = "^.*$"
    if matchAll then .ok ⟨true, normalizedPattern, []⟩
    else
      match splitTerms normalizedPattern with
      | .error e => .error e
      | .ok ts =>
        let terms := ts.map normalizeTerm
        if terms.length = 0 then .ok ⟨true, normalizedPattern, []⟩
        else .ok ⟨false, normalizedPattern, terms⟩

/-- The per-file predicate of `filterAndSortFiles` (term variant). -/
def fileMatches (compiled : CompiledFilter) (name : String) : Bool :=
compiled.matchAll || nameMatchesAnyTerm name compiled.terms

/-- lib/filter (term variant) `filterAndSortFiles`. -/
def filterAndSortFiles (collCmp : String → String → Int)
    (files : List FileEntry) (compiled : CompiledFilter) (limit : Nat)
    (column : SortColumn) (order : SortOrder) : FileFilterResult :=
  let matched := files.filter (fun file => fileMatches compiled file.full_name)
  let sorted := jsSortBy (fileCompare collCmp column order) matched
  { files := sorted.take limit, totalMatched := sorted.length }

/-- The per-container predicate of `filterAndSortContainers` (term
variant): fast path, else any file name ends with any term. -/
def containerMatches (compiled : CompiledFilter) (c : ContainerEntry) : Bool :=
  if compiled.matchAll then true
  else c.files.any (fun file => nameMatchesAnyTerm file.full_name compiled.terms)

/-- lib/filter (term variant) `filterAndSortContainers`. -/
def filterAndSortContainers (collCmp : String → String → Int)
    (containers : List ContainerEntry) (compiled : CompiledFilter) (limit : Nat)
    (column : SortColumn) (order : SortOrder) : ContainerFilterResult :=
  let matched := containers.filter (fun c => containerMatches compiled c)
  let sorted := jsSortBy (containerCompare collCmp column order) matched
  { containers := sorted.take limit, totalMatched := sorted.length }

end TermFilter

/-! Heap-level view of the filter/sort calls for the frame property: a
store of arrays addressed by index, on which `files.filter` allocates a
fresh array, `matched.sort` mutates that fresh array in place, and
`slice` allocates again.  The caller's input array is addressed by
`filesRef` and must be untouched. -/

def filterAndSortFilesProc (collCmp : String → String → Int)
    (store : List (List FileEntry)) (filesRef : Nat)
    (compiled : RegexFilter.CompiledFilter) (limit : Nat)
    (column : SortColumn) (order : SortOrder) :
    List (List FileEntry) × FileFilterResult :=
  let files := store.getD filesRef []
  let matched := files.filter (fun file => RegexFilter.fileMatches compiled file.full_name)
  let store1 := store ++ [matched]
  let sorted := jsSortBy (fileCompare collCmp column order) matched
  let store2 := store1.set store.length sorted
  (store2, { files := sorted.take limit, totalMatched := sorted.length })

def filterAndSortContainersProc (collCmp : String → String → Int)
    (store : List (List ContainerEntry)) (containersRef : Nat)
    (compiled : RegexFilter.CompiledFilter) (limit : Nat)
    (column : SortColumn) (order : SortOrder) :
    List (List ContainerEntry) × ContainerFilterResult :=
  let containers := store.getD containersRef []
  let matched := containers.filter (fun c => RegexFilter.containerMatches compiled c)
  let store1 := store ++ [matched]
  let sorted := jsSortBy (containerCompare collCmp column order) matched
  let store2 := store1.set store.length sorted
  (store2, { containers := sorted.take limit, totalMatched := sorted.length })

/-- Containers a settled source outcome contributes to the aggregate
listing. -/
def okContainers (r : Source × Except String (List ContainerEntry)) :
    List ContainerEntry :=
  match r.2 with
  | .ok cs => cs
  | .error _ => []

/-- Error annotation a settled source outcome contributes. -/
def errAnnotation (r : Source × Except String (List ContainerEntry)) :
    Option String :=
  match r.2 with
  | .ok _ => none
  | .error _ => some (sourceLabel r.1 ++ ": unavailable")

/-- State used to refute C1 as stated: the per-IP counter for the
"unknown" bucket already sits at its limit inside a live window, the
other two maps are empty. -/
def c1State : RateState :=
  { ipRateLimitState := [("unknown", ⟨240, 100⟩)],
    keyRateLimitState := [],
    keyChurnState := [] }

/-- Oversized per-IP counter map with every entry inside a live window:
the soft-max pruning pass has nothing expired to delete and performs no
further eviction. -/
def c4BigMap : List (String × Counter) :=
  ("unknown", ⟨1, 100⟩) :: (List.range (RATE_LIMIT_STATE_SOFT_MAX + 1)).map
    (fun i => ("ip" ++ toString i, ⟨1, 100⟩))

/-! Association-list map lemmas. -/

theorem mapGet_mapSet_self {α : Type} (m : List (String × α)) (k : String) (v : α) :
    mapGet (mapSet m k v) k = some v := by
  induction m with
  | nil => simp [mapSet, mapGet]
  | cons h t ih =>
    obtain ⟨k', v'⟩ := h
    by_cases hk : k' = k
    · simp [mapSet, hk, mapGet]
    · simp [mapSet, hk, mapGet, ih]

theorem mapGet_eq_none_iff {α : Type} (m : List (String × α)) (k : String) :
    mapGet m k = none ↔ k ∉ m.map Prod.fst := by
  induction m with
  | nil => simp [mapGet]
  | cons h t ih =>
    obtain ⟨k', v'⟩ := h
    by_cases hk : k' = k
    · subst hk; simp [mapGet]
    · simp [mapGet, hk, ih, Ne.symm hk]

theorem mapGet_filter_of_pos {α : Type} {p : String × α → Bool}
    {m : List (String × α)} {k : String} {v : α}
    (hv : mapGet m k = some v) (hp : p (k, v) = true) :
    mapGet (m.filter p) k = some v := by
  induction m with
  | nil => simp [mapGet] at hv
  | cons h t ih =>
    obtain ⟨k', v'⟩ := h
    by_cases hk : k' = k
    · subst hk
      simp [mapGet] at hv
      subst hv
      simp [List.filter_cons, hp, mapGet]
    · simp [mapGet, hk] at hv
      rcases hkept : p (k', v') with _ | _
      · simpa [List.filter_cons, hkept] using ih hv
      · simpa [List.filter_cons, hkept, mapGet, hk] using ih hv

theorem mapGet_filter_of_none {α : Type} {p : String × α → Bool}
    {m : List (String × α)} {k : String}
    (hv : mapGet m k = none) : mapGet (m.filter p) k = none := by
  rw [mapGet_eq_none_iff] at hv ⊢
  intro hmem
  apply hv
  obtain ⟨e, he, hfst⟩ := List.mem_map.mp hmem
  exact List.mem_map.mpr ⟨e, (List.mem_filter.mp he).1, hfst⟩

theorem mapGet_filter_of_neg {α : Type} {p : String × α → Bool}
    {m : List (String × α)} {k : String} {v : α}
    (hnd : (m.map Prod.fst).Nodup)
    (hv : mapGet m k = some v) (hp : p (k, v) = false) :
    mapGet (m.filter p) k = none := by
  induction m with
  | nil => simp [mapGet] at hv
  | cons h t ih =>
    obtain ⟨k', v'⟩ := h
    simp only [List.map_cons, List.nodup_cons] at hnd
    by_cases hk : k' = k
    · subst hk
      simp [mapGet] at hv
      subst hv
      simp [List.filter_cons, hp]
      exact mapGet_filter_of_none ((mapGet_eq_none_iff t k').mpr hnd.1)
    · simp [mapGet, hk] at hv
      rcases hkept : p (k', v') with _ | _
      · simpa [List.filter_cons, hkept] using ih hnd.2 hv
      · simpa [List.filter_cons, hkept, mapGet, hk] using ih hnd.2 hv

/-! Rate-limiter step lemmas. -/

theorem mapGet_pruneCounterMap_live {m : List (String × Counter)} {now : Nat}
    {k : String} {c : Counter} (hk : mapGet m k = some c) (hl : now < c.resetAt) :
    mapGet (pruneCounterMap m now) k = some c := by
  unfold pruneCounterMap
  split
  · exact hk
  · exact mapGet_filter_of_pos hk (by simp [hl])

theorem mapGet_pruneCounterMap_none {m : List (String × Counter)} {now : Nat}
    {k : String} (hk : mapGet m k = none) :
    mapGet (pruneCounterMap m now) k = none := by
  unfold pruneCounterMap
  split
  · exact hk
  · exact mapGet_filter_of_none hk

theorem consumeRateLimit_live (m : List (String × Counter)) (bucket : String)
    (L now cnt R : Nat) (hk : mapGet m bucket = some ⟨cnt, R⟩) (hnow : now < R) :
    consumeRateLimit m bucket L now =
      (decide (L < cnt + 1), mapSet (pruneCounterMap m now) bucket ⟨cnt + 1, R⟩) := by
  simp only [consumeRateLimit]
  rw [mapGet_pruneCounterMap_live hk hnow]
  simp only
  rw [if_neg ((by omega : ¬ R ≤ now) : ¬ (Counter.mk cnt R).resetAt ≤ now)]

theorem consumeRateLimit_fresh {m : List (String × Counter)} {bucket : String}
    {L now : Nat} (hk : mapGet (pruneCounterMap m now) bucket = none) :
    consumeRateLimit m bucket L now =
      (false, mapSet (pruneCounterMap m now) bucket ⟨1, now + RATE_LIMIT_WINDOW_MS⟩) := by
  simp only [consumeRateLimit]
  rw [hk]

theorem consumeRateLimit_expired {m : List (String × Counter)} {bucket : String}
    {L now : Nat} {c : Counter}
    (hk : mapGet (pruneCounterMap m now) bucket = some c) (h : c.resetAt ≤ now) :
    consumeRateLimit m bucket L now =
      (false, mapSet (pruneCounterMap m now) bucket ⟨1, now + RATE_LIMIT_WINDOW_MS⟩) := by
  simp only [consumeRateLimit]
  rw [hk]
  simp only
  rw [if_pos h]

theorem runCounterCalls_live (bucket : String) (L R : Nat) :
    ∀ (ts : List Nat) (m : List (String × Counter)) (cnt : Nat),
    mapGet m bucket = some ⟨cnt, R⟩ → (∀ t ∈ ts, t < R) →
    (runCounterCalls m bucket L ts).2 =
      (List.range ts.length).map (fun i => decide (L < cnt + i + 1)) := by
  intro ts
  induction ts with
  | nil => intro m cnt _ _; simp [runCounterCalls]
  | cons t rest ih =>
    intro m cnt hk hts
    have ht : t < R := hts t (by simp)
    have hstep := consumeRateLimit_live m bucket L t cnt R hk ht
    have hk' := mapGet_mapSet_self (pruneCounterMap m t) bucket ⟨cnt + 1, R⟩
    have htail := ih (mapSet (pruneCounterMap m t) bucket ⟨cnt + 1, R⟩) (cnt + 1)
      hk' (fun t' h' => hts t' (by simp [h']))
    simp only [runCounterCalls, hstep, htail]
    rw [List.length_cons, List.range_succ_eq_map, List.map_cons, List.map_map]
    congr 1
    apply List.map_congr_left
    intro i _
    simp only [Function.comp_apply]
    rw [decide_eq_decide]
    omega

theorem pruneCounterMap_of_le {m : List (String × Counter)} {now : Nat}
    (h : m.length ≤ RATE_LIMIT_STATE_SOFT_MAX) : pruneCounterMap m now = m := by
  simp [pruneCounterMap, h]

/-- Claim C5: starting from a bucket that is absent or whose window has
expired at the first call time, a run of calls all timed inside the
window opened by the first call is allowed exactly on its first L calls
(the i-th flag is `L < i + 1`), so the (L+1)-th call on the bucket is
the first rejected one; and the first call reinitializes the bucket to
count 1 with `resetAt = t0 + window`.  Applied to the state left by a
previous window (whose `resetAt` is at or before the new call time) this
also gives the reset behavior: the resetting call is allowed and the new
window again admits exactly L calls. -/
theorem c5_window_limit (m : List (String × Counter)) (bucket : String)
    (L t0 : Nat) (rest : List Nat)
    (hnd : (m.map Prod.fst).Nodup)
    (hinit : mapGet m bucket = none ∨ ∃ c, mapGet m bucket = some c ∧ c.resetAt ≤ t0)
    (hL : 1 ≤ L)
    (hts : ∀ t ∈ rest, t < t0 + RATE_LIMIT_WINDOW_MS) :
    (runCounterCalls m bucket L (t0 :: rest)).2 =
      (List.range (rest.length + 1)).map (fun i => decide (L < i + 1)) ∧
    mapGet (consumeRateLimit m bucket L t0).2 bucket =
      some ⟨1, t0 + RATE_LIMIT_WINDOW_MS⟩ := by
  have hfirst : consumeRateLimit m bucket L t0 =
      (false, mapSet (pruneCounterMap m t0) bucket ⟨1, t0 + RATE_LIMIT_WINDOW_MS⟩) := by
    rcases hinit with hnone | ⟨c, hc, hcle⟩
    · exact consumeRateLimit_fresh (mapGet_pruneCounterMap_none hnone)
    · by_cases hsz : m.length ≤ RATE_LIMIT_STATE_SOFT_MAX
      · exact consumeRateLimit_expired (by rw [pruneCounterMap_of_le hsz]; exact hc) hcle
      · refine consumeRateLimit_fresh ?_
        unfold pruneCounterMap
        rw [if_neg hsz]
        exact mapGet_filter_of_neg hnd hc (by simp; omega)
  have hk1 := mapGet_mapSet_self (pruneCounterMap m t0) bucket
    ⟨1, t0 + RATE_LIMIT_WINDOW_MS⟩
  refine ⟨?_, by rw [hfirst]; exact hk1⟩
  have htail := runCounterCalls_live bucket L (t0 + RATE_LIMIT_WINDOW_MS) rest
    (mapSet (pruneCounterMap m t0) bucket ⟨1, t0 + RATE_LIMIT_WINDOW_MS⟩) 1 hk1 hts
  simp only [runCounterCalls, hfirst, htail]
  rw [List.range_succ_eq_map, List.map_cons, List.map_map]
  congr 1
  · exact (decide_eq_false (by omega)).symm
  · apply List.map_congr_left
    intro i _
    simp only [Function.comp_apply]
    rw [decide_eq_decide]
    omega

/-- Witness for C5: with limit 2, four in-window calls on a fresh bucket
are allowed, allowed, rejected, rejected, and the first call creates
count 1 with the window end at 60000. -/
theorem c5_window_limit_witness :
    (runCounterCalls [] "unknown" 2 [0, 1, 2, 3]).2 = [false, false, true, true] ∧
    mapGet (consumeRateLimit [] "unknown" 2 0).2 "unknown" =
      some ⟨1, 0 + RATE_LIMIT_WINDOW_MS⟩ := by
  have h := c5_window_limit [] "unknown" 2 0 [1, 2, 3] (by simp)
    (Or.inl rfl) (by omega) (by decide)
  exact ⟨h.1.trans (by decide), h.2⟩

theorem mapGet_pruneKeyChurnMap_live {m : List (String × ChurnEntry)} {now : Nat}
    {k : String} {c : ChurnEntry} (hk : mapGet m k = some c) (hl : now < c.resetAt) :
    mapGet (pruneKeyChurnMap m now) k = some c := by
  unfold pruneKeyChurnMap
  split
  · exact hk
  · exact mapGet_filter_of_pos hk (by simp [hl])

theorem mapGet_pruneKeyChurnMap_none {m : List (String × ChurnEntry)} {now : Nat}
    {k : String} (hk : mapGet m k = none) :
    mapGet (pruneKeyChurnMap m now) k = none := by
  unfold pruneKeyChurnMap
  split
  · exact hk
  · exact mapGet_filter_of_none hk

theorem pruneKeyChurnMap_of_le {m : List (String × ChurnEntry)} {now : Nat}
    (h : m.length ≤ RATE_LIMIT_STATE_SOFT_MAX) : pruneKeyChurnMap m now = m := by
  simp [pruneKeyChurnMap, h]

theorem consumeKeyChurnLimit_live (m : List (String × ChurnEntry)) (ip key : String)
    (now R : Nat) (ks : List String)
    (hk : mapGet m ip = some ⟨ks, R⟩) (hnow : now < R) :
    consumeKeyChurnLimit m ip key now =
      (decide (RATE_LIMIT_MAX_UNIQUE_KEYS_PER_IP < (setAdd ks key).length),
        mapSet (pruneKeyChurnMap m now) ip ⟨setAdd ks key, R⟩) := by
  simp only [consumeKeyChurnLimit]
  rw [mapGet_pruneKeyChurnMap_live hk hnow]
  simp only
  rw [if_neg ((by omega : ¬ R ≤ now) : ¬ (ChurnEntry.mk ks R).resetAt ≤ now)]

theorem consumeKeyChurnLimit_fresh {m : List (String × ChurnEntry)} {ip key : String}
    {now : Nat} (hk : mapGet (pruneKeyChurnMap m now) ip = none) :
    consumeKeyChurnLimit m ip key now =
      (false, mapSet (pruneKeyChurnMap m now) ip ⟨[key], now + RATE_LIMIT_WINDOW_MS⟩) := by
  simp only [consumeKeyChurnLimit]
  rw [hk]

theorem consumeKeyChurnLimit_expired {m : List (String × ChurnEntry)} {ip key : String}
    {now : Nat} {c : ChurnEntry}
    (hk : mapGet (pruneKeyChurnMap m now) ip = some c) (h : c.resetAt ≤ now) :
    consumeKeyChurnLimit m ip key now =
      (false, mapSet (pruneKeyChurnMap m now) ip ⟨[key], now + RATE_LIMIT_WINDOW_MS⟩) := by
  simp only [consumeKeyChurnLimit]
  rw [hk]
  simp only
  rw [if_pos h]

theorem runChurnCalls_live (ip : String) (R : Nat) :
    ∀ (calls : List (String × Nat)) (m : List (String × ChurnEntry)) (acc : List String),
    mapGet m ip = some ⟨acc, R⟩ → (∀ c ∈ calls, c.2 < R) →
    (runChurnCalls m ip calls).2 =
      (List.range calls.length).map (fun i =>
        decide (RATE_LIMIT_MAX_UNIQUE_KEYS_PER_IP <
          (((calls.take (i + 1)).map Prod.fst).foldl setAdd acc).length)) := by
  intro calls
  induction calls with
  | nil => intro m acc _ _; simp [runChurnCalls]
  | cons c rest ih =>
    intro m acc hk hts
    obtain ⟨key, t⟩ := c
    have ht : t < R := hts (key, t) (by simp)
    have hstep := consumeKeyChurnLimit_live m ip key t R acc hk ht
    have hk' := mapGet_mapSet_self (pruneKeyChurnMap m t) ip ⟨setAdd acc key, R⟩
    have htail := ih (mapSet (pruneKeyChurnMap m t) ip ⟨setAdd acc key, R⟩)
      (setAdd acc key) hk' (fun c' h' => hts c' (by simp [h']))
    simp only [runChurnCalls, hstep, htail]
    rw [List.length_cons, List.range_succ_eq_map, List.map_cons, List.map_map]
    congr 1

/-- Claim C6: for one IP whose churn bucket is absent or expired at the
first call time, a run of (key, time) calls all timed inside the window
opened by the first call is limited at index i exactly when the number
of distinct keys among the first i+1 calls exceeds the unique-key cap
(3).  Hence calls using at most 3 distinct keys are never rejected by
the churn check, and rejection starts with the call introducing the 4th
distinct key and persists for every later in-window call. -/
theorem c6_key_churn (m : List (String × ChurnEntry)) (ip : String)
    (key0 : String) (t0 : Nat) (rest : List (String × Nat))
    (hnd : (m.map Prod.fst).Nodup)
    (hinit : mapGet m ip = none ∨ ∃ c, mapGet m ip = some c ∧ c.resetAt ≤ t0)
    (hts : ∀ c ∈ rest, c.2 < t0 + RATE_LIMIT_WINDOW_MS) :
    (runChurnCalls m ip ((key0, t0) :: rest)).2 =
      (List.range (rest.length + 1)).map (fun i =>
        decide (RATE_LIMIT_MAX_UNIQUE_KEYS_PER_IP <
          (distinctKeys ((((key0, t0) :: rest).take (i + 1)).map Prod.fst)).length)) := by
  have hfirst : consumeKeyChurnLimit m ip key0 t0 =
      (false, mapSet (pruneKeyChurnMap m t0) ip ⟨[key0], t0 + RATE_LIMIT_WINDOW_MS⟩) := by
    rcases hinit with hnone | ⟨c, hc, hcle⟩
    · exact consumeKeyChurnLimit_fresh (mapGet_pruneKeyChurnMap_none hnone)
    · by_cases hsz : m.length ≤ RATE_LIMIT_STATE_SOFT_MAX
      · exact consumeKeyChurnLimit_expired (by rw [pruneKeyChurnMap_of_le hsz]; exact hc) hcle
      · refine consumeKeyChurnLimit_fresh ?_
        unfold pruneKeyChurnMap
        rw [if_neg hsz]
        exact mapGet_filter_of_neg hnd hc (by simp; omega)
  have hk1 := mapGet_mapSet_self (pruneKeyChurnMap m t0) ip
    ⟨[key0], t0 + RATE_LIMIT_WINDOW_MS⟩
  have htail := runChurnCalls_live ip (t0 + RATE_LIMIT_WINDOW_MS) rest
    (mapSet (pruneKeyChurnMap m t0) ip ⟨[key0], t0 + RATE_LIMIT_WINDOW_MS⟩) [key0] hk1 hts
  simp only [runChurnCalls, hfirst, htail]
  rw [List.range_succ_eq_map, List.map_cons, List.map_map]
  congr 1

/-- Witness for C6: five calls from one IP with keys a, b, c, d, a — the
call introducing the 4th distinct key and the following call (re-using
an old key) are rejected, the first three are allowed. -/
theorem c6_key_churn_witness :
    (runChurnCalls [] "1.2.3.4" [("a", 0), ("b", 1), ("c", 2), ("d", 3), ("a", 4)]).2 =
      [false, false, false, true, true] := by
  have h := c6_key_churn [] "1.2.3.4" "a" 0 [("b", 1), ("c", 2), ("d", 3), ("a", 4)]
    (by simp) (Or.inl rfl) (by decide)
  exact h.trans (by decide)

theorem mapSet_cons_self {α : Type} (k : String) (v w : α) (t : List (String × α)) :
    mapSet ((k, v) :: t) k w = (k, w) :: t := by
  simp [mapSet]

theorem length_mapSet_le {α : Type} (m : List (String × α)) (k : String) (v : α) :
    (mapSet m k v).length ≤ m.length + 1 := by
  induction m with
  | nil => simp [mapSet]
  | cons h t ih =>
    obtain ⟨k', v'⟩ := h
    by_cases hk : k' = k
    · simp [mapSet, hk]
    · simp only [mapSet, if_neg hk, List.length_cons]
      omega

theorem consumeRateLimit_touches (m : List (String × Counter)) (bucket : String)
    (L now : Nat) : (mapGet (consumeRateLimit m bucket L now).2 bucket).isSome = true := by
  simp only [consumeRateLimit]
  cases h : mapGet (pruneCounterMap m now) bucket with
  | none => simp [mapGet_mapSet_self]
  | some c =>
    by_cases hle : c.resetAt ≤ now
    · simp [hle, mapGet_mapSet_self]
    · simp [hle, mapGet_mapSet_self]

theorem consumeKeyChurnLimit_touches (m : List (String × ChurnEntry))
    (ip key : String) (now : Nat) :
    (mapGet (consumeKeyChurnLimit m ip key now).2 ip).isSome = true := by
  simp only [consumeKeyChurnLimit]
  cases h : mapGet (pruneKeyChurnMap m now) ip with
  | none => simp [mapGet_mapSet_self]
  | some c =>
    by_cases hle : c.resetAt ≤ now
    · simp [hle, mapGet_mapSet_self]
    · simp [hle, mapGet_mapSet_self]

/-- Counterexample to C1 as stated: an admission call rejected by the
per-IP check leaves the per-IP-per-key counter map and the churn key
set completely untouched (both still empty, the churn bucket absent),
so the three structures are not all updated on every call. -/
theorem c1_counterexample :
    (isRateLimited c1State none "k" 50).1 = true ∧
    (isRateLimited c1State none "k" 50).2.keyRateLimitState = [] ∧
    (isRateLimited c1State none "k" 50).2.keyChurnState = [] ∧
    mapGet (isRateLimited c1State none "k" 50).2.keyChurnState "unknown" = none := by
  exact ⟨rfl, rfl, rfl, rfl⟩

/-- Claim C1 amended: the three checks run sequentially with
short-circuiting.  The per-IP counter is touched on every call; the
per-IP-per-key counter and the churn key set are touched only when all
earlier checks reported allowed, and are left unchanged when an earlier
check reports limited; the request is rejected exactly when the first
check (in order per-IP, per-IP-per-key, churn) that reports limited
does so. -/
theorem c1_sequential_checks (s : RateState) (ip : Option String) (key : String)
    (now : Nat) :
    (mapGet (isRateLimited s ip key now).2.ipRateLimitState (ip.getD "unknown")).isSome = true
    ∧ ((consumeRateLimit s.ipRateLimitState (ip.getD "unknown")
          RATE_LIMIT_MAX_REQUESTS_PER_IP now).1 = true →
        (isRateLimited s ip key now).1 = true
        ∧ (isRateLimited s ip key now).2.keyRateLimitState = s.keyRateLimitState
        ∧ (isRateLimited s ip key now).2.keyChurnState = s.keyChurnState)
    ∧ ((consumeRateLimit s.ipRateLimitState (ip.getD "unknown")
          RATE_LIMIT_MAX_REQUESTS_PER_IP now).1 = false →
        (mapGet (isRateLimited s ip key now).2.keyRateLimitState
          (ip.getD "unknown" ++ "|" ++ key)).isSome = true
        ∧ ((consumeRateLimit s.keyRateLimitState (ip.getD "unknown" ++ "|" ++ key)
              RATE_LIMIT_MAX_REQUESTS_PER_IP_KEY now).1 = true →
            (isRateLimited s ip key now).1 = true
            ∧ (isRateLimited s ip key now).2.keyChurnState = s.keyChurnState)
        ∧ ((consumeRateLimit s.keyRateLimitState (ip.getD "unknown" ++ "|" ++ key)
              RATE_LIMIT_MAX_REQUESTS_PER_IP_KEY now).1 = false →
            (isRateLimited s ip key now).1 =
              (consumeKeyChurnLimit s.keyChurnState (ip.getD "unknown") key now).1
            ∧ (mapGet (isRateLimited s ip key now).2.keyChurnState
                (ip.getD "unknown")).isSome = true)) := by
  simp only [isRateLimited]
  by_cases h1 : (consumeRateLimit s.ipRateLimitState (ip.getD "unknown")
      RATE_LIMIT_MAX_REQUESTS_PER_IP now).1
  · simp [h1, consumeRateLimit_touches]
  · by_cases h2 : (consumeRateLimit s.keyRateLimitState (ip.getD "unknown" ++ "|" ++ key)
        RATE_LIMIT_MAX_REQUESTS_PER_IP_KEY now).1
    · simp [h1, h2, consumeRateLimit_touches, mapGet_mapSet_self]
    · simp [h1, h2, consumeRateLimit_touches, consumeKeyChurnLimit_touches,
        mapGet_mapSet_self]

/-- Witness for C1 amended, instantiated at an empty state where every
check reports allowed. -/
theorem c1_sequential_checks_witness :
    (isRateLimited ⟨[], [], []⟩ (some "1.2.3.4") "k" 0).1 = false
    ∧ (mapGet (isRateLimited ⟨[], [], []⟩ (some "1.2.3.4") "k" 0).2.keyChurnState
        "1.2.3.4").isSome = true := by
  have h := c1_sequential_checks ⟨[], [], []⟩ (some "1.2.3.4") "k" 0
  have h3 := (h.2.2 (by decide)).2.2 (by decide)
  exact ⟨h3.1.trans (by decide), h3.2⟩

/-- Counterexample to C4 as stated: a rate-limit map holding soft-max+2
live entries stays at soft-max+2 entries through a prune-and-insert
admission call, exceeding the cap by more than the single touched
entry — the counter maps never evict unexpired entries. -/
theorem c4_counterexample :
    c4BigMap.length = RATE_LIMIT_STATE_SOFT_MAX + 2 ∧
    RATE_LIMIT_STATE_SOFT_MAX + 1 <
      ((consumeRateLimit c4BigMap "unknown" RATE_LIMIT_MAX_REQUESTS_PER_IP 0).2).length := by
  have hlen : c4BigMap.length = RATE_LIMIT_STATE_SOFT_MAX + 2 := by
    simp [c4BigMap]
  have hprune : pruneCounterMap c4BigMap 0 = c4BigMap := by
    unfold pruneCounterMap
    rw [if_neg (by omega)]
    rw [List.filter_eq_self.mpr]
    intro e he
    simp only [c4BigMap, List.mem_cons, List.mem_map, List.mem_range] at he
    rcases he with he | ⟨i, _, he⟩
    · subst he; rfl
    · rw [← he]; rfl
  have hget : mapGet c4BigMap "unknown" = some ⟨1, 100⟩ := rfl
  have hstep := consumeRateLimit_live c4BigMap "unknown"
    RATE_LIMIT_MAX_REQUESTS_PER_IP 0 1 100 hget (by omega)
  refine ⟨hlen, ?_⟩
  rw [hstep, hprune]
  have hset : mapSet c4BigMap "unknown" ⟨2, 100⟩
      = ("unknown", ⟨2, 100⟩) :: (List.range (RATE_LIMIT_STATE_SOFT_MAX + 1)).map
        (fun i => ("ip" ++ toString i, ⟨1, 100⟩)) := by
    unfold c4BigMap
    exact mapSet_cons_self _ _ _ _
  rw [hset]
  simp only [List.length_cons, List.length_map, List.length_range]
  omega

theorem trimCache_length_le {α : Type} (m : List (String × CacheEntry α)) (now : Nat) :
    (trimCache m now).length ≤ CACHE_SOFT_MAX := by
  by_cases h0 : m.length ≤ CACHE_SOFT_MAX
  · simp only [trimCache, if_pos h0]
    exact h0
  · simp only [trimCache, if_neg h0]
    by_cases h1 : (m.filter (fun e => decide (now < e.2.expiresAt))).length ≤ CACHE_SOFT_MAX
    · simp only [if_pos h1]
      exact h1
    · simp only [if_neg h1, List.length_drop]
      omega

/-- Claim C4 amended: the two-phase policy (drop expired, then evict
until back at the cap) holds for the upstream cache maps — after
`trimCache` the map is at or under the soft maximum, so a cache
prune-and-insert exceeds the cap by at most the inserted entry — while
the rate-limit counter maps only ever drop expired entries when over
the cap: their pruning pass keeps exactly the live entries and performs
no second eviction phase. -/
theorem c4_prune_policies :
    (∀ (α : Type) (m : List (String × CacheEntry α)) (k : String) (v : α) (now : Nat),
      (cacheSet m k v now).length ≤ CACHE_SOFT_MAX + 1)
    ∧ (∀ (m : List (String × Counter)) (now : Nat) (e : String × Counter),
        RATE_LIMIT_STATE_SOFT_MAX < m.length →
        (e ∈ pruneCounterMap m now ↔ e ∈ m ∧ now < e.2.resetAt)) := by
  constructor
  · intro α m k v now
    calc (cacheSet m k v now).length ≤ (trimCache m now).length + 1 :=
          length_mapSet_le _ _ _
      _ ≤ CACHE_SOFT_MAX + 1 := by
          have := trimCache_length_le m now
          omega
  · intro m now e h
    simp only [pruneCounterMap, if_neg (by omega : ¬ m.length ≤ RATE_LIMIT_STATE_SOFT_MAX)]
    simp [List.mem_filter]

/-- Witness for C4 amended: a cache insert into an empty map stays under
the cap plus one, and the oversized live counter map keeps its head
entry through pruning. -/
theorem c4_prune_policies_witness :
    (cacheSet ([] : List (String × CacheEntry Nat)) "torrents:k" 5 0).length ≤
      CACHE_SOFT_MAX + 1
    ∧ (("unknown", (⟨1, 100⟩ : Counter)) ∈ pruneCounterMap c4BigMap 0 ↔
        ("unknown", (⟨1, 100⟩ : Counter)) ∈ c4BigMap ∧ (0 : Nat) < 100) := by
  refine ⟨c4_prune_policies.1 Nat [] "torrents:k" 5 0, ?_⟩
  exact c4_prune_policies.2 c4BigMap 0 ("unknown", ⟨1, 100⟩) (by simp [c4BigMap]; omega)

/-! All-sources aggregation lemmas (C2). -/

theorem aggregate_containers_eq :
    ∀ (settled : List (Source × Except String (List ContainerEntry)))
      (acc : List ContainerEntry),
    settled.foldl (fun acc r => match r.2 with | .ok cs => acc ++ cs | .error _ => acc) acc
      = acc ++ settled.flatMap okContainers := by
  intro settled
  induction settled with
  | nil => intro acc; simp
  | cons r rest ih =>
    intro acc
    obtain ⟨src, res⟩ := r
    cases res with
    | ok cs => simp [List.flatMap_cons, ih, okContainers]
    | error e => simp [List.flatMap_cons, ih, okContainers]

theorem aggregate_errors_eq :
    ∀ (settled : List (Source × Except String (List ContainerEntry)))
      (acc : List String),
    settled.foldl (fun acc r => match r.2 with
      | .ok _ => acc
      | .error _ => acc ++ [sourceLabel r.1 ++ ": unavailable"]) acc
      = acc ++ settled.filterMap errAnnotation := by
  intro settled
  induction settled with
  | nil => intro acc; simp
  | cons r rest ih =>
    intro acc
    obtain ⟨src, res⟩ := r
    cases res with
    | ok cs => simp [List.filterMap_cons, ih, errAnnotation]
    | error e => simp [List.filterMap_cons, ih, errAnnotation]

/-- Counterexample to C2 as stated: with one source succeeding (with an
empty container list) and one source failing, the aggregate still
returns the 502 error even though not every source failed. -/
theorem c2_counterexample :
    aggregateAllSources [(Source.torrents, Except.ok []), (Source.webdl, Except.error "HTTP 500")]
      = Except.error "Upstream provider unavailable"
    ∧ (Source.torrents, (Except.ok [] : Except String (List ContainerEntry)))
        ∈ [(Source.torrents, Except.ok ([] : List ContainerEntry)), (Source.webdl, Except.error "HTTP 500")] := by
  exact ⟨rfl, by simp⟩

/-- Claim C2 amended: the aggregate request fails (HTTP 502) exactly
when at least one source failed and the succeeded sources contributed
zero containers in total — so a source that succeeds with a non-empty
container list prevents the 502, but a source succeeding with an empty
list does not; in the 200 case every succeeded source's containers
appear in the listing and every failed source contributes its error
annotation. -/
theorem c2_partial_failure (settled : List (Source × Except String (List ContainerEntry))) :
    ((∃ e, aggregateAllSources settled = .error e) ↔
      ((∀ r ∈ settled, okContainers r = []) ∧ ∃ r ∈ settled, ∃ e, r.2 = .error e))
    ∧ (∀ cs errs, aggregateAllSources settled = .ok (cs, errs) →
        (∀ r ∈ settled, ∀ v, r.2 = .ok v → ∀ c ∈ v, c ∈ cs)
        ∧ (∀ r ∈ settled, ∀ e, r.2 = .error e →
            (sourceLabel r.1 ++ ": unavailable") ∈ errs)) := by
  have hc := aggregate_containers_eq settled []
  have he := aggregate_errors_eq settled []
  constructor
  · constructor
    · intro ⟨e, hagg⟩
      simp only [aggregateAllSources, hc, he, List.nil_append] at hagg
      by_cases hcond : (settled.flatMap okContainers).length = 0 ∧
          0 < (List.filterMap errAnnotation settled).length
      · obtain ⟨h1, h2⟩ := hcond
        constructor
        · intro r hr
          exact List.flatMap_eq_nil_iff.mp (List.length_eq_zero.mp h1) r hr
        · rcases List.exists_mem_of_length_pos h2 with ⟨msg, hmsg⟩
          rcases List.mem_filterMap.mp hmsg with ⟨r, hr, hann⟩
          refine ⟨r, hr, ?_⟩
          cases hres : r.2 with
          | error err => exact ⟨err, rfl⟩
          | ok v =>
            unfold errAnnotation at hann
            rw [hres] at hann
            simp at hann
      · rw [if_neg hcond] at hagg
        simp at hagg
    · intro ⟨hall, r, hr, e, herr⟩
      refine ⟨"Upstream provider unavailable", ?_⟩
      simp only [aggregateAllSources, hc, he, List.nil_append]
      have h1 : (settled.flatMap okContainers).length = 0 := by
        rw [List.length_eq_zero, List.flatMap_eq_nil_iff]
        exact hall
      have h2 : 0 < (List.filterMap errAnnotation settled).length := by
        have hmem : (sourceLabel r.1 ++ ": unavailable") ∈
            List.filterMap errAnnotation settled :=
          List.mem_filterMap.mpr ⟨r, hr, by unfold errAnnotation; rw [herr]⟩
        exact List.length_pos_of_mem hmem
      rw [if_pos ⟨h1, h2⟩]
  · intro cs errs hagg
    simp only [aggregateAllSources, hc, he, List.nil_append] at hagg
    by_cases hcond : (settled.flatMap okContainers).length = 0 ∧
        0 < (List.filterMap errAnnotation settled).length
    · rw [if_pos hcond] at hagg
      simp at hagg
    · rw [if_neg hcond] at hagg
      simp only [Except.ok.injEq, Prod.mk.injEq] at hagg
      obtain ⟨hcs, herrs⟩ := hagg
      constructor
      · intro r hr v hv c hcv
        rw [← hcs]
        refine List.mem_flatMap.mpr ⟨r, hr, ?_⟩
        unfold okContainers
        rw [hv]
        exact hcv
      · intro r hr e hv
        rw [← herrs]
        refine List.mem_filterMap.mpr ⟨r, hr, ?_⟩
        unfold errAnnotation
        rw [hv]

/-- Witness for C2 amended, at a fan-out where one source succeeds with
a container and one fails: the aggregate is a 200 listing carrying the
succeeded source's container next to the failed source's annotation. -/
theorem c2_partial_failure_witness :
    aggregateAllSources
        [(Source.torrents, Except.ok [⟨Source.torrents, 1, "Alpha", []⟩]),
         (Source.webdl, Except.error "HTTP 500")]
      = Except.ok ([⟨Source.torrents, 1, "Alpha", []⟩], ["webdl: unavailable"])
    ∧ (⟨Source.torrents, 1, "Alpha", []⟩ : ContainerEntry) ∈
        [(⟨Source.torrents, 1, "Alpha", []⟩ : ContainerEntry)] := by
  refine ⟨rfl, ?_⟩
  have h := ((c2_partial_failure
      [(Source.torrents, Except.ok [⟨Source.torrents, 1, "Alpha", []⟩]),
       (Source.webdl, Except.error "HTTP 500")]).2
    [⟨Source.torrents, 1, "Alpha", []⟩] ["webdl: unavailable"] rfl).1
  exact h (Source.torrents, Except.ok [⟨Source.torrents, 1, "Alpha", []⟩]) (by simp)
    [⟨Source.torrents, 1, "Alpha", []⟩] rfl ⟨Source.torrents, 1, "Alpha", []⟩ (by simp)

/-- Claim C7: a container list stored at time T under its composite
cache key is served straight from the cache — same value, unchanged
cache, no upstream call — for every request with `now < T + TTL`; at
`now ≥ T + TTL` the entry is treated as absent (the lazy read reports a
miss and deletes it), the upstream is consulted, and its outcome is the
request's result. -/
theorem c7_cache_ttl (cache : List (String × CacheEntry (List ContainerEntry)))
    (source : Source) (key : String) (v : List ContainerEntry) (T now : Nat)
    (upstream : Except String (List ContainerEntry)) :
    (now < T + LIST_CACHE_TTL_MS →
      fetchContainersBySource upstream
          (cacheSet cache (sourceLabel source ++ ":" ++ key) v T) source key now
        = (.ok v, cacheSet cache (sourceLabel source ++ ":" ++ key) v T, false))
    ∧ (T + LIST_CACHE_TTL_MS ≤ now →
      (fetchContainersBySource upstream
          (cacheSet cache (sourceLabel source ++ ":" ++ key) v T) source key now).2.2 = true
      ∧ (fetchContainersBySource upstream
          (cacheSet cache (sourceLabel source ++ ":" ++ key) v T) source key now).1 = upstream
      ∧ (cacheGet (cacheSet cache (sourceLabel source ++ ":" ++ key) v T)
          (sourceLabel source ++ ":" ++ key) now).1 = none
      ∧ (cacheGet (cacheSet cache (sourceLabel source ++ ":" ++ key) v T)
          (sourceLabel source ++ ":" ++ key) now).2
        = mapDelete (cacheSet cache (sourceLabel source ++ ":" ++ key) v T)
            (sourceLabel source ++ ":" ++ key)) := by
  have hget : mapGet (cacheSet cache (sourceLabel source ++ ":" ++ key) v T)
      (sourceLabel source ++ ":" ++ key) = some ⟨v, T + LIST_CACHE_TTL_MS⟩ :=
    mapGet_mapSet_self (trimCache cache T) (sourceLabel source ++ ":" ++ key)
      ⟨v, T + LIST_CACHE_TTL_MS⟩
  constructor
  · intro hlt
    have hcg : cacheGet (cacheSet cache (sourceLabel source ++ ":" ++ key) v T)
        (sourceLabel source ++ ":" ++ key) now
        = (some v, cacheSet cache (sourceLabel source ++ ":" ++ key) v T) := by
      simp only [cacheGet]
      rw [hget]
      simp only
      rw [if_neg ((by omega : ¬ T + LIST_CACHE_TTL_MS ≤ now) :
        ¬ (CacheEntry.mk v (T + LIST_CACHE_TTL_MS)).expiresAt ≤ now)]
    simp only [fetchContainersBySource, hcg]
  · intro hge
    have hcg : cacheGet (cacheSet cache (sourceLabel source ++ ":" ++ key) v T)
        (sourceLabel source ++ ":" ++ key) now
        = (none, mapDelete (cacheSet cache (sourceLabel source ++ ":" ++ key) v T)
            (sourceLabel source ++ ":" ++ key)) := by
      simp only [cacheGet]
      rw [hget]
      simp only
      rw [if_pos (hge : (CacheEntry.mk v (T + LIST_CACHE_TTL_MS)).expiresAt ≤ now)]
    cases upstream with
    | ok cs => simp [fetchContainersBySource, hcg]
    | error e => simp [fetchContainersBySource, hcg]

/-- Witness for C7: an entry stored at time 0 is a no-upstream hit at
time 1 and, at time 20000, is gone and the upstream outcome (an error
here) is returned with the upstream consulted. -/
theorem c7_cache_ttl_witness :
    fetchContainersBySource (.ok [⟨Source.torrents, 1, "Alpha", []⟩])
        (cacheSet [] (sourceLabel .torrents ++ ":" ++ "k") [] 0) .torrents "k" 1
      = (.ok [], cacheSet [] (sourceLabel .torrents ++ ":" ++ "k") [] 0, false)
    ∧ (fetchContainersBySource (.error "HTTP 500")
        (cacheSet [] (sourceLabel .torrents ++ ":" ++ "k") [] 0) .torrents "k" 20000).2.2 = true
    ∧ (fetchContainersBySource (.error "HTTP 500")
        (cacheSet [] (sourceLabel .torrents ++ ":" ++ "k") [] 0) .torrents "k" 20000).1
      = .error "HTTP 500" := by
  have h1 := (c7_cache_ttl [] .torrents "k" [] 0 1 (.ok [⟨Source.torrents, 1, "Alpha", []⟩])).1
    (by decide)
  have h2 := (c7_cache_ttl [] .torrents "k" [] 0 20000 (.error "HTTP 500")).2 (by decide)
  exact ⟨h1, h2.1, h2.2.1⟩

/-- Counterexample to C3 as stated: the term-mode pattern "," splits to
an empty term list, so compilation sets the match-all fast path; the
fast path matches the file "a.mkv", but the compiled filter's general
matching predicate — the suffix-term test over its (empty) term list —
rejects it, so the two disagree. -/
theorem c3_counterexample :
    TermFilter.compileFilter "," "i" = Except.ok ⟨true, ",", []⟩
    ∧ TermFilter.fileMatches ⟨true, ",", []⟩ "a.mkv" = true
    ∧ TermFilter.nameMatchesAnyTerm "a.mkv"
        (TermFilter.CompiledFilter.mk true "," []).terms = false := by
  exact ⟨rfl, rfl, rfl⟩

/-- Claim C3 amended: for every compiled filter with the match-all flag
set (in either variant), the fast path makes every entity match — the
full matching predicate used by filtering, which consults the flag
before the general test, returns true on every name, and a match-all
filter filters nothing out (totalMatched is the whole input).  The
general matching test alone need not agree: a term-mode match-all
filter carries an empty term list whose suffix test rejects every
name. -/
theorem c3_match_all_fast_path :
    (∀ (c : TermFilter.CompiledFilter), c.matchAll = true →
      ∀ name, TermFilter.fileMatches c name = true)
    ∧ (∀ (c : RegexFilter.CompiledFilter), c.matchAll = true →
      ∀ name, RegexFilter.fileMatches c name = true)
    ∧ (∀ (collCmp : String → String → Int) (files : List FileEntry)
        (c : TermFilter.CompiledFilter) (limit : Nat) (column : SortColumn)
        (order : SortOrder), c.matchAll = true →
        (TermFilter.filterAndSortFiles collCmp files c limit column order).totalMatched
          = files.length) := by
  refine ⟨?_, ?_, ?_⟩
  · intro c h name
    simp [TermFilter.fileMatches, h]
  · intro c h name
    simp [RegexFilter.fileMatches, h]
  · intro collCmp files c limit column order h
    simp only [TermFilter.filterAndSortFiles]
    have hf : files.filter (fun file => TermFilter.fileMatches c file.full_name) = files :=
      List.filter_eq_self.mpr (fun a _ => by simp [TermFilter.fileMatches, h])
    rw [hf]
    exact (List.perm_insertionSort _ files).length_eq

/-- Witness for C3 amended: the match-all filter compiled from ","
matches the file "a.mkv" and keeps the whole one-file input. -/
theorem c3_match_all_fast_path_witness :
    TermFilter.fileMatches ⟨true, ",", []⟩ "b.mp4" = true
    ∧ (TermFilter.filterAndSortFiles (fun _ _ => 0)
        [⟨Source.torrents, 1, 10, "a.mkv", "a.mkv", 5⟩] ⟨true, ",", []⟩ 1
        SortColumn.N SortOrder.A).totalMatched = 1 := by
  exact ⟨c3_match_all_fast_path.1 ⟨true, ",", []⟩ rfl "b.mp4",
    c3_match_all_fast_path.2.2 (fun _ _ => 0)
      [⟨Source.torrents, 1, 10, "a.mkv", "a.mkv", 5⟩] ⟨true, ",", []⟩ 1
      SortColumn.N SortOrder.A rfl⟩

/-- Claim C8: the displayed list is the sorted match list truncated to
the limit, so its length is min(totalMatched, limit); and totalMatched
is computed before truncation, so it does not depend on (in particular
never decreases with) the limit.  Holds for files and containers. -/
theorem c8_truncation (collCmp : String → String → Int) (files : List FileEntry)
    (containers : List ContainerEntry) (fc : RegexFilter.CompiledFilter)
    (limit limit' : Nat) (column : SortColumn) (order : SortOrder) :
    (RegexFilter.filterAndSortFiles collCmp files fc limit column order).files.length
      = min (RegexFilter.filterAndSortFiles collCmp files fc limit column order).totalMatched
          limit
    ∧ (RegexFilter.filterAndSortFiles collCmp files fc limit column order).totalMatched
      = (RegexFilter.filterAndSortFiles collCmp files fc limit' column order).totalMatched
    ∧ (RegexFilter.filterAndSortContainers collCmp containers fc limit column
        order).containers.length
      = min (RegexFilter.filterAndSortContainers collCmp containers fc limit column
          order).totalMatched limit
    ∧ (RegexFilter.filterAndSortContainers collCmp containers fc limit column
        order).totalMatched
      = (RegexFilter.filterAndSortContainers collCmp containers fc limit' column
          order).totalMatched := by
  refine ⟨?_, rfl, ?_, rfl⟩
  · simp [RegexFilter.filterAndSortFiles, List.length_take, Nat.min_comm]
  · simp [RegexFilter.filterAndSortContainers, List.length_take, Nat.min_comm]

/-- Claim C10: the filter/sort calls never mutate the caller's array.
In the heap-level view, the matched entities go into a freshly
allocated array which is then sorted in place and sliced, so after the
call the store still holds the input array unchanged at its address,
and the returned result coincides with the pure function. -/
theorem c10_no_mutation (collCmp : String → String → Int)
    (store : List (List FileEntry)) (cstore : List (List ContainerEntry))
    (filesRef containersRef : Nat) (compiled : RegexFilter.CompiledFilter)
    (limit : Nat) (column : SortColumn) (order : SortOrder)
    (hf : filesRef < store.length) (hc : containersRef < cstore.length) :
    (filterAndSortFilesProc collCmp store filesRef compiled limit column order).1[filesRef]?
      = store[filesRef]?
    ∧ (filterAndSortFilesProc collCmp store filesRef compiled limit column order).2
      = RegexFilter.filterAndSortFiles collCmp (store.getD filesRef []) compiled limit
          column order
    ∧ (filterAndSortContainersProc collCmp cstore containersRef compiled limit column
        order).1[containersRef]?
      = cstore[containersRef]?
    ∧ (filterAndSortContainersProc collCmp cstore containersRef compiled limit column
        order).2
      = RegexFilter.filterAndSortContainers collCmp (cstore.getD containersRef [])
          compiled limit column order := by
  refine ⟨?_, rfl, ?_, rfl⟩
  · simp only [filterAndSortFilesProc]
    rw [List.getElem?_set_ne (by omega), List.getElem?_append, if_pos hf]
  · simp only [filterAndSortContainersProc]
    rw [List.getElem?_set_ne (by omega), List.getElem?_append, if_pos hc]

/-- Witness for C10 at a one-array store each. -/
theorem c10_no_mutation_witness :
    (filterAndSortFilesProc (fun _ _ => 0)
        [[⟨Source.torrents, 1, 10, "a.mkv", "a.mkv", 5⟩]] 0
        ⟨fun _ => true, false⟩ 5 SortColumn.N SortOrder.A).1[0]?
      = some [⟨Source.torrents, 1, 10, "a.mkv", "a.mkv", 5⟩]
    ∧ (filterAndSortContainersProc (fun _ _ => 0)
        [[⟨Source.torrents, 1, "Alpha", []⟩]] 0
        ⟨fun _ => true, false⟩ 5 SortColumn.N SortOrder.A).1[0]?
      = some [⟨Source.torrents, 1, "Alpha", []⟩] := by
  have h := c10_no_mutation (fun _ _ => 0)
    [[⟨Source.torrents, 1, 10, "a.mkv", "a.mkv", 5⟩]]
    [[⟨Source.torrents, 1, "Alpha", []⟩]] 0 0
    ⟨fun _ => true, false⟩ 5 SortColumn.N SortOrder.A
    (by simp) (by simp)
  exact ⟨h.1.trans rfl, h.2.2.1.trans rfl⟩

/-! Comparator lemmas for the three-key sort (C9).  The comparators of
the engine have the shape `if p a b ≠ 0 then p a b else q a b` with a
primary key `p` and the id tie-break `q`; the lemmas below are stated
over that shape. -/

theorem lexLike_swap {α : Type} (p q : α → α → Int)
    (hp1 : ∀ a b, p b a = -p a b) (hq1 : ∀ a b, q b a = -q a b) (a b : α) :
    (if p b a ≠ 0 then p b a else q b a) = -(if p a b ≠ 0 then p a b else q a b) := by
  by_cases h : p a b = 0
  · have hba : p b a = 0 := by rw [hp1]; omega
    rw [if_neg (by simp [hba]), if_neg (by simp [h]), hq1]
  · have hba : p b a ≠ 0 := by rw [hp1]; omega
    rw [if_pos hba, if_pos h, hp1]

theorem lexLike_trans {α : Type} (p q : α → α → Int)
    (hp1 : ∀ a b, p b a = -p a b)
    (hp2 : ∀ a b c, p a b ≤ 0 → p b c ≤ 0 → p a c ≤ 0)
    (hp3 : ∀ a b c, p a b = 0 → p a c = p b c)
    (hq2 : ∀ a b c, q a b ≤ 0 → q b c ≤ 0 → q a c ≤ 0)
    (a b c : α)
    (hab : (if p a b ≠ 0 then p a b else q a b) ≤ 0)
    (hbc : (if p b c ≠ 0 then p b c else q b c) ≤ 0) :
    (if p a c ≠ 0 then p a c else q a c) ≤ 0 := by
  by_cases h1 : p a b = 0 <;> by_cases h2 : p b c = 0
  · have hac : p a c = 0 := by rw [hp3 a b c h1]; exact h2
    rw [if_neg (by simp [hac])]
    rw [if_neg (by simp [h1])] at hab
    rw [if_neg (by simp [h2])] at hbc
    exact hq2 a b c hab hbc
  · have hac : p a c = p b c := hp3 a b c h1
    rw [if_pos h2] at hbc
    rw [if_pos (by rw [hac]; exact h2), hac]
    exact hbc
  · have h2' : p c b = 0 := by have := hp1 b c; omega
    have hac : p a c = p a b := by
      have h3 := hp3 c b a h2'
      have e1 := hp1 a c
      have e2 := hp1 a b
      omega
    rw [if_pos h1] at hab
    rw [if_pos (by rw [hac]; exact h1), hac]
    exact hab
  · rw [if_pos h1] at hab
    rw [if_pos h2] at hbc
    have hac : p a c ≤ 0 := hp2 a b c hab hbc
    by_cases h3 : p a c = 0
    · exfalso
      have h4 := hp3 a c b h3
      have h5 := hp1 b c
      omega
    · rw [if_pos h3]
      exact hac

theorem lexLike_eq_zero {α : Type} (p q : α → α → Int) (a b : α)
    (h : (if p a b ≠ 0 then p a b else q a b) = 0) : p a b = 0 ∧ q a b = 0 := by
  by_cases hp : p a b = 0
  · refine ⟨hp, ?_⟩
    rwa [if_neg (by simp [hp])] at h
  · rw [if_pos hp] at h
    exact absurd h hp

theorem pairwise_ne_inj {α β : Type} (f : α → β) :
    ∀ (l : List α), l.Pairwise (fun x y => f x ≠ f y) →
    ∀ a ∈ l, ∀ b ∈ l, f a = f b → a = b := by
  intro l
  induction l with
  | nil => simp
  | cons x t ih =>
    intro hp a ha b hb hf
    rcases List.mem_cons.mp ha with rfl | ha'
    · rcases List.mem_cons.mp hb with rfl | hb'
      · rfl
      · exact absurd hf ((List.pairwise_cons.mp hp).1 b hb')
    · rcases List.mem_cons.mp hb with rfl | hb'
      · exact absurd hf.symm ((List.pairwise_cons.mp hp).1 a ha')
      · exact ih (List.pairwise_cons.mp hp).2 a ha' b hb' hf

theorem sorted_perm_eq {α : Type} {r : α → α → Prop} :
    ∀ (l₁ l₂ : List α), l₁.Perm l₂ → l₁.Pairwise r → l₂.Pairwise r →
      (∀ a ∈ l₁, ∀ b ∈ l₁, r a b → r b a → a = b) → l₁ = l₂ := by
  intro l₁
  induction l₁ with
  | nil =>
    intro l₂ hp _ _ _
    exact hp.nil_eq
  | cons x t₁ ih =>
    intro l₂ hp h₁ h₂ ha
    cases l₂ with
    | nil =>
      have := hp.length_eq
      simp at this
    | cons y t₂ =>
      have hxy : x = y := by
        by_cases hxy' : x = y
        · exact hxy'
        · have hx2 : x ∈ y :: t₂ := hp.mem_iff.mp (by simp)
          have hy1 : y ∈ x :: t₁ := hp.symm.mem_iff.mp (by simp)
          have hx2' : x ∈ t₂ := by
            rcases List.mem_cons.mp hx2 with h | h
            · exact absurd h hxy'
            · exact h
          have hy1' : y ∈ t₁ := by
            rcases List.mem_cons.mp hy1 with h | h
            · exact absurd h.symm hxy'
            · exact h
          have hryx : r y x := (List.pairwise_cons.mp h₂).1 x hx2'
          have hrxy : r x y := (List.pairwise_cons.mp h₁).1 y hy1'
          exact ha x (by simp) y (by simp [hy1']) hrxy hryx
      subst hxy
      have hpt : t₁.Perm t₂ := hp.cons_inv
      have htail := ih t₂ hpt (List.pairwise_cons.mp h₁).2 (List.pairwise_cons.mp h₂).2
        (fun a hat b hbt hab hba => ha a (by simp [hat]) b (by simp [hbt]) hab hba)
      rw [htail]

theorem fileCompare_desc (collCmp : String → String → Int) (column : SortColumn)
    (a b : FileEntry) :
    fileCompare collCmp column SortOrder.D a b
      = -(fileCompare collCmp column SortOrder.A a b) := by
  cases column with
  | S =>
    simp only [fileCompare, sortByNumber]
    by_cases h : (a.size : Int) - b.size = 0
    · rw [if_neg (by omega), if_neg (by omega)]
    · rw [if_pos (by omega), if_pos (by omega)]
  | N =>
    simp only [fileCompare, sortByName, sortByNumber]
    by_cases h : collCmp a.display_name b.display_name = 0
    · rw [if_neg (by omega), if_neg (by omega)]
    · rw [if_pos (by omega), if_pos (by omega)]
  | D =>
    simp only [fileCompare, sortByName, sortByNumber]
    by_cases h : collCmp a.display_name b.display_name = 0
    · rw [if_neg (by omega), if_neg (by omega)]
    · rw [if_pos (by omega), if_pos (by omega)]

theorem fileCompare_A_swap (collCmp : String → String → Int)
    (hswap : ∀ x y, collCmp y x = -collCmp x y) (column : SortColumn)
    (a b : FileEntry) :
    fileCompare collCmp column SortOrder.A b a
      = -(fileCompare collCmp column SortOrder.A a b) := by
  cases column with
  | S =>
    exact lexLike_swap (fun x y : FileEntry => (x.size : Int) - y.size)
      (fun x y : FileEntry => (x.file_id : Int) - y.file_id)
      (fun x y => by dsimp only; omega) (fun x y => by dsimp only; omega) a b
  | N =>
    exact lexLike_swap (fun x y : FileEntry => collCmp x.display_name y.display_name)
      (fun x y : FileEntry => (x.file_id : Int) - y.file_id)
      (fun x y => hswap _ _) (fun x y => by dsimp only; omega) a b
  | D =>
    exact lexLike_swap (fun x y : FileEntry => collCmp x.display_name y.display_name)
      (fun x y : FileEntry => (x.file_id : Int) - y.file_id)
      (fun x y => hswap _ _) (fun x y => by dsimp only; omega) a b

theorem fileCompare_A_trans (collCmp : String → String → Int)
    (htrans : ∀ x y z, collCmp x y ≤ 0 → collCmp y z ≤ 0 → collCmp x z ≤ 0)
    (hzero : ∀ x y z, collCmp x y = 0 → collCmp x z = collCmp y z)
    (hswap : ∀ x y, collCmp y x = -collCmp x y) (column : SortColumn)
    (a b c : FileEntry)
    (hab : fileCompare collCmp column SortOrder.A a b ≤ 0)
    (hbc : fileCompare collCmp column SortOrder.A b c ≤ 0) :
    fileCompare collCmp column SortOrder.A a c ≤ 0 := by
  cases column with
  | S =>
    exact lexLike_trans (fun x y : FileEntry => (x.size : Int) - y.size)
      (fun x y : FileEntry => (x.file_id : Int) - y.file_id)
      (fun x y => by dsimp only; omega) (fun x y z h1 h2 => by dsimp only at h1 h2 ⊢; omega)
      (fun x y z h => by dsimp only at h ⊢; omega) (fun x y z h1 h2 => by dsimp only at h1 h2 ⊢; omega) a b c hab hbc
  | N =>
    exact lexLike_trans (fun x y : FileEntry => collCmp x.display_name y.display_name)
      (fun x y : FileEntry => (x.file_id : Int) - y.file_id)
      (fun x y => hswap _ _) (fun x y z h1 h2 => htrans _ _ _ h1 h2)
      (fun x y z h => hzero _ _ _ h) (fun x y z h1 h2 => by dsimp only at h1 h2 ⊢; omega) a b c hab hbc
  | D =>
    exact lexLike_trans (fun x y : FileEntry => collCmp x.display_name y.display_name)
      (fun x y : FileEntry => (x.file_id : Int) - y.file_id)
      (fun x y => hswap _ _) (fun x y z h1 h2 => htrans _ _ _ h1 h2)
      (fun x y z h => hzero _ _ _ h) (fun x y z h1 h2 => by dsimp only at h1 h2 ⊢; omega) a b c hab hbc

theorem fileCompare_A_eq_zero (collCmp : String → String → Int) (column : SortColumn)
    (a b : FileEntry) (h : fileCompare collCmp column SortOrder.A a b = 0) :
    a.file_id = b.file_id := by
  cases column with
  | S =>
    have h2 := (lexLike_eq_zero (fun x y : FileEntry => (x.size : Int) - y.size)
      (fun x y : FileEntry => (x.file_id : Int) - y.file_id) a b h).2
    omega
  | N =>
    have h2 := (lexLike_eq_zero
      (fun x y : FileEntry => collCmp x.display_name y.display_name)
      (fun x y : FileEntry => (x.file_id : Int) - y.file_id) a b h).2
    omega
  | D =>
    have h2 := (lexLike_eq_zero
      (fun x y : FileEntry => collCmp x.display_name y.display_name)
      (fun x y : FileEntry => (x.file_id : Int) - y.file_id) a b h).2
    omega

/-- Claim C9: with a lawful collator (sign-antisymmetric, transitive,
zero-congruent compare), on any file list with pairwise-distinct ids
the three-key comparator never compares two distinct entities equal
(for either order), and because flipping the order flag negates the
whole comparator including the id tie-break, the descending sort is
exactly the reverse of the ascending sort (before truncation). -/
theorem c9_sort_total_order (collCmp : String → String → Int)
    (hswap : ∀ x y, collCmp y x = -collCmp x y)
    (htrans : ∀ x y z, collCmp x y ≤ 0 → collCmp y z ≤ 0 → collCmp x z ≤ 0)
    (hzero : ∀ x y z, collCmp x y = 0 → collCmp x z = collCmp y z)
    (column : SortColumn) (l : List FileEntry)
    (hids : l.Pairwise (fun a b => a.file_id ≠ b.file_id)) :
    (∀ a ∈ l, ∀ b ∈ l, a ≠ b →
      ∀ order, fileCompare collCmp column order a b ≠ 0)
    ∧ jsSortBy (fileCompare collCmp column SortOrder.D) l
      = (jsSortBy (fileCompare collCmp column SortOrder.A) l).reverse := by
  have hinj := pairwise_ne_inj (fun f : FileEntry => f.file_id) l hids
  have hAsw := fileCompare_A_swap collCmp hswap column
  have hAtr := fileCompare_A_trans collCmp htrans hzero hswap column
  have hDesc := fileCompare_desc collCmp column
  have part1 : ∀ a ∈ l, ∀ b ∈ l, a ≠ b →
      ∀ order, fileCompare collCmp column order a b ≠ 0 := by
    intro a ha b hb hne order h0
    apply hne
    apply hinj a ha b hb
    apply fileCompare_A_eq_zero collCmp column a b
    cases order with
    | A => exact h0
    | D =>
      have := hDesc a b
      omega
  refine ⟨part1, ?_⟩
  have hSA : (jsSortBy (fileCompare collCmp column SortOrder.A) l).Pairwise
      (fun a b => fileCompare collCmp column SortOrder.A a b ≤ 0) := by
    haveI : IsTotal FileEntry
        (fun a b => fileCompare collCmp column SortOrder.A a b ≤ 0) :=
      ⟨fun a b => by have := hAsw a b; omega⟩
    haveI : IsTrans FileEntry
        (fun a b => fileCompare collCmp column SortOrder.A a b ≤ 0) :=
      ⟨fun a b c h1 h2 => hAtr a b c h1 h2⟩
    exact List.sorted_insertionSort _ l
  have hSD : (jsSortBy (fileCompare collCmp column SortOrder.D) l).Pairwise
      (fun a b => fileCompare collCmp column SortOrder.D a b ≤ 0) := by
    haveI : IsTotal FileEntry
        (fun a b => fileCompare collCmp column SortOrder.D a b ≤ 0) :=
      ⟨fun a b => by
        have h1 := hDesc a b
        have h2 := hDesc b a
        have h3 := hAsw a b
        omega⟩
    haveI : IsTrans FileEntry
        (fun a b => fileCompare collCmp column SortOrder.D a b ≤ 0) :=
      ⟨fun a b c h1 h2 => by
        have d1 := hDesc a b
        have d2 := hDesc b c
        have d3 := hDesc a c
        have s1 := hAsw a b
        have s2 := hAsw b c
        have s3 := hAsw a c
        have t := hAtr c b a (by omega) (by omega)
        have s4 := hAsw c a
        omega⟩
    exact List.sorted_insertionSort _ l
  have hpermA := List.perm_insertionSort
    (fun a b => fileCompare collCmp column SortOrder.A a b ≤ 0) l
  have hpermD := List.perm_insertionSort
    (fun a b => fileCompare collCmp column SortOrder.D a b ≤ 0) l
  have hperm : (jsSortBy (fileCompare collCmp column SortOrder.D) l).Perm
      ((jsSortBy (fileCompare collCmp column SortOrder.A) l).reverse) :=
    hpermD.trans (hpermA.symm.trans
      (List.reverse_perm (jsSortBy (fileCompare collCmp column SortOrder.A) l)).symm)
  have hrev : ((jsSortBy (fileCompare collCmp column SortOrder.A) l).reverse).Pairwise
      (fun a b => fileCompare collCmp column SortOrder.D a b ≤ 0) := by
    rw [List.pairwise_reverse]
    refine List.Pairwise.imp ?_ hSA
    intro a b hab
    have d := hDesc b a
    have s := hAsw a b
    omega
  have hanti : ∀ a ∈ jsSortBy (fileCompare collCmp column SortOrder.D) l,
      ∀ b ∈ jsSortBy (fileCompare collCmp column SortOrder.D) l,
      fileCompare collCmp column SortOrder.D a b ≤ 0 →
      fileCompare collCmp column SortOrder.D b a ≤ 0 → a = b := by
    intro a ha b hb h1 h2
    have ha' : a ∈ l := hpermD.subset ha
    have hb' : b ∈ l := hpermD.subset hb
    have d1 := hDesc a b
    have d2 := hDesc b a
    have s := hAsw a b
    have hz : fileCompare collCmp column SortOrder.A a b = 0 := by omega
    exact hinj a ha' b hb' (fileCompare_A_eq_zero collCmp column a b hz)
  exact sorted_perm_eq _ _ hperm hSD hrev hanti

/-- Witness for C9 at the trivial (constant-zero) collator and a
two-file list with distinct ids: the descending sort is the reverse of
the ascending sort. -/
theorem c9_sort_total_order_witness :
    jsSortBy (fileCompare (fun _ _ => 0) SortColumn.N SortOrder.D)
        [(⟨Source.torrents, 1, 10, "a.mkv", "a.mkv", 5⟩ : FileEntry),
         ⟨Source.torrents, 1, 20, "b.mkv", "b.mkv", 7⟩]
      = (jsSortBy (fileCompare (fun _ _ => 0) SortColumn.N SortOrder.A)
          [(⟨Source.torrents, 1, 10, "a.mkv", "a.mkv", 5⟩ : FileEntry),
           ⟨Source.torrents, 1, 20, "b.mkv", "b.mkv", 7⟩]).reverse := by
  exact (c9_sort_total_order (fun _ _ => 0)
    (fun x y => by dsimp only; omega) (fun x y z h1 h2 => by dsimp only; omega)
    (fun x y z h => rfl) SortColumn.N _ (by decide)).2
